import Mathlib

/-!
# Simple-faas: verification of the Engine and Cleanup Scheduler

Shallow embedding of the Go sources of the Simple-faas control plane
(`engine/src/Engine.go`, `engine/src/Database.go`, `scheduler/src/main.go`)
together with proofs about the embedded definitions.

Modelling conventions:
* Go strings are modelled as Lean `String`/`List Char`; the validation and
  sanitization code paths are exercised on ASCII data, where Go byte length
  and byte slicing coincide with character length and character slicing
  (after the regex strip only single-byte `[a-z0-9-]` characters remain,
  so the truncation step is exact).
* Machine integers are modelled as `Nat` (ids are `AUTO_INCREMENT` primary
  keys, always nonnegative; time stamps and durations are in milliseconds
  resp. abstract ticks).
* The external collaborators (MySQL store, Docker runtime, sidecar HTTP)
  are modelled by explicit state passing and by environment values that fix
  the outcome of each external call, exactly mirroring which outcomes the
  Go code distinguishes.
-/

namespace SimpleFaas

/-! ## Decimal rendering of ids (Go `strconv.Itoa` on nonnegative ints) -/

/-- One decimal digit as a character (`0 ≤ d ≤ 9`; other inputs clamp to `'9'`,
never reached since the argument is always `n % 10`). -/
def digitChar : Nat → Char
  | 0 => '0'
  | 1 => '1'
  | 2 => '2'
  | 3 => '3'
  | 4 => '4'
  | 5 => '5'
  | 6 => '6'
  | 7 => '7'
  | 8 => '8'
  | _ => '9'

/-- Accumulator loop of decimal rendering: peels digits least-significant
first, pushing them on the front of `acc`. -/
def itoaAux : Nat → List Char → List Char
  | 0, acc => acc
  | n + 1, acc => itoaAux ((n + 1) / 10) (digitChar ((n + 1) % 10) :: acc)
decreasing_by exact Nat.div_lt_self (Nat.succ_pos n) (by omega)

/-- Structural (fuel-indexed) version of `itoaAux`; the fuel `n` itself is
always sufficient, so this computes the same digits while also reducing
inside the kernel. -/
def itoaCore : Nat → Nat → List Char → List Char
  | 0, _, acc => acc
  | _ + 1, 0, acc => acc
  | fuel + 1, n + 1, acc => itoaCore fuel ((n + 1) / 10) (digitChar ((n + 1) % 10) :: acc)

theorem itoaCore_eq_itoaAux :
    ∀ (fuel n : Nat), n ≤ fuel → ∀ acc, itoaCore fuel n acc = itoaAux n acc := by
  intro fuel
  induction fuel with
  | zero =>
    intro n hn acc
    interval_cases n
    simp [itoaCore, itoaAux]
  | succ fuel ih =>
    intro n hn acc
    match n with
    | 0 => simp [itoaCore, itoaAux]
    | m + 1 =>
      rw [itoaCore, itoaAux]
      exact ih ((m + 1) / 10)
        (by have := Nat.div_lt_self (Nat.succ_pos m) (show 1 < 10 by omega); omega) _

/-- Embedding of Go `strconv.Itoa` restricted to nonnegative values. -/
def itoa (n : Nat) : String := if n = 0 then "0" else String.mk (itoaCore n n [])

theorem itoa_eq (n : Nat) :
    itoa n = if n = 0 then "0" else String.mk (itoaAux n []) := by
  rw [itoa, itoaCore_eq_itoaAux n n (le_refl n)]

/-- `isDigit c` holds for `'0'..'9'`. -/
def isDigitChar (c : Char) : Bool := '0' ≤ c && c ≤ '9'

/-- Numeric value of a digit string (most-significant first). -/
def fromDigits (l : List Char) : Nat :=
  l.foldl (fun a c => a * 10 + (c.toNat - 48)) 0

/-- Strict decimal parser: `some n` iff the string is a nonempty digit
string.  Models the (numeric-only) id strings the store queries receive. -/
def parseNatStr (s : String) : Option Nat :=
  if s.data ≠ [] ∧ s.data.all isDigitChar then some (fromDigits s.data) else none

theorem itoaAux_append (n : Nat) :
    ∀ acc : List Char, itoaAux n acc = itoaAux n [] ++ acc := by
  induction n using Nat.strong_induction_on with
  | _ n ih =>
    intro acc
    match n with
    | 0 => simp [itoaAux]
    | m + 1 =>
      rw [itoaAux, itoaAux]
      rw [ih ((m + 1) / 10) (Nat.div_lt_self (Nat.succ_pos m) (by omega))
            (digitChar ((m + 1) % 10) :: acc),
          ih ((m + 1) / 10) (Nat.div_lt_self (Nat.succ_pos m) (by omega))
            [digitChar ((m + 1) % 10)]]
      simp

theorem itoaAux_ne_nil (n : Nat) (hn : 0 < n) : itoaAux n [] ≠ [] := by
  match n with
  | m + 1 =>
    rw [itoaAux, itoaAux_append]
    simp

theorem digitChar_isDigit (d : Nat) (hd : d < 10) : isDigitChar (digitChar d) = true := by
  interval_cases d <;> decide

theorem itoaAux_digits (n : Nat) :
    ∀ c ∈ itoaAux n [], isDigitChar c = true := by
  induction n using Nat.strong_induction_on with
  | _ n ih =>
    intro c hc
    match n with
    | 0 => simp [itoaAux] at hc
    | m + 1 =>
      rw [itoaAux, itoaAux_append] at hc
      rcases List.mem_append.mp hc with h | h
      · exact ih ((m + 1) / 10) (Nat.div_lt_self (Nat.succ_pos m) (by omega)) c h
      · simp at h
        subst h
        exact digitChar_isDigit _ (Nat.mod_lt _ (by omega))

theorem itoa_digits (n : Nat) : ∀ c ∈ (itoa n).data, isDigitChar c = true := by
  intro c hc
  by_cases h : n = 0
  · subst h
    simp only [itoa_eq, if_pos rfl] at hc
    have : c = '0' := by simpa using hc
    subst this; decide
  · simp only [itoa_eq, if_neg h] at hc
    exact itoaAux_digits n c hc

theorem itoaAux_length_le (k : Nat) :
    ∀ n, n < 10 ^ k → (itoaAux n []).length ≤ k := by
  induction k with
  | zero =>
    intro n hn
    interval_cases n
    simp [itoaAux]
  | succ k ih =>
    intro n hn
    match n with
    | 0 => simp [itoaAux]
    | m + 1 =>
      rw [itoaAux, itoaAux_append]
      have hdiv : (m + 1) / 10 < 10 ^ k := by
        rw [Nat.div_lt_iff_lt_mul (by omega)]
        calc m + 1 < 10 ^ (k + 1) := hn
        _ = 10 ^ k * 10 := by ring
      have := ih ((m + 1) / 10) hdiv
      simp only [List.length_append, List.length_cons, List.length_nil]
      omega

theorem foldl_itoaAux (n : Nat) :
    ∀ a : Nat,
      (itoaAux n []).foldl (fun a c => a * 10 + (c.toNat - 48)) a =
        a * 10 ^ (itoaAux n []).length + n := by
  induction n using Nat.strong_induction_on with
  | _ n ih =>
    intro a
    match n with
    | 0 => simp [itoaAux]
    | m + 1 =>
      rw [itoaAux, itoaAux_append]
      rw [List.foldl_append]
      rw [ih ((m + 1) / 10) (Nat.div_lt_self (Nat.succ_pos m) (by omega)) a]
      have hdg : (digitChar ((m + 1) % 10)).toNat - 48 = (m + 1) % 10 := by
        have h10 : (m + 1) % 10 < 10 := Nat.mod_lt _ (by omega)
        set d := (m + 1) % 10 with hd
        interval_cases d <;> rfl
      simp only [List.foldl_cons, List.foldl_nil, List.length_append,
        List.length_cons, List.length_nil, hdg]
      rw [pow_succ]
      have := Nat.div_add_mod (m + 1) 10
      ring_nf
      omega

theorem fromDigits_itoa (n : Nat) : fromDigits (itoa n).data = n := by
  by_cases h : n = 0
  · subst h; rfl
  · simp only [itoa_eq, if_neg h, fromDigits]
    rw [foldl_itoaAux]
    simp

theorem parseNatStr_itoa (n : Nat) : parseNatStr (itoa n) = some n := by
  rw [parseNatStr, if_pos, fromDigits_itoa]
  constructor
  · by_cases h : n = 0
    · subst h; decide
    · simp only [itoa_eq, if_neg h]
      exact fun hc => itoaAux_ne_nil n (Nat.pos_of_ne_zero h) hc
  · exact List.all_eq_true.mpr (itoa_digits n)

theorem itoa_injective : Function.Injective itoa := by
  intro a b hab
  have := fromDigits_itoa a
  rw [hab, fromDigits_itoa b] at this
  exact this.symm

/-! ## Data model (`Database.go`) -/

/-- Embedding of the Go `FunctionEntry` row of the `functions` table.
`ID` is the `AUTO_INCREMENT` primary key; `ContainerID` is the nullable
container reference (`sql.NullString`). -/
structure FunctionEntry where
  ID : Nat
  FunctionName : String
  FunctionCode : String
  FunctionLanguage : String
  ContainerID : Option String
deriving DecidableEq, Repr

/-- `FunctionNameMaxLen` from `Database.go`. -/
def FunctionNameMaxLen : Nat := 50

/-- `FunctionLanguageMaxLen` from `Database.go`. -/
def FunctionLanguageMaxLen : Nat := 50

/-- `FunctionCodeMaxLen` from `Database.go`. -/
def FunctionCodeMaxLen : Nat := 10 * 1000

/-! ## UID generation and resolution (`Database.go`:
`generateFunctionID`, `solveFunctionID`) -/

/-- `strings.ReplaceAll(name, "_", "-")`, per character. -/
def replaceUnderscore (c : Char) : Char := if c = '_' then '-' else c

/-- `strings.ToLower`, per ASCII character (the sanitized names the claims
quantify over stay inside ASCII, where Go and this model agree). -/
def asciiToLower (c : Char) : Char :=
  if 'A' ≤ c ∧ c ≤ 'Z' then Char.ofNat (c.toNat + 32) else c

/-- Character class of the Go regex `[^a-z0-9\-]`'s complement: the
characters that survive `re.ReplaceAllString(name, "")`. -/
def allowedChar (c : Char) : Bool :=
  ('a' ≤ c && c ≤ 'z') || ('0' ≤ c && c ≤ '9') || c = '-'

/-- The sanitization pipeline of `generateFunctionID`:
replace `'_'` by `'-'`, lower-case, strip everything outside `[a-z0-9-]`. -/
def sanitizeName (s : List Char) : List Char :=
  (s.map fun c => asciiToLower (replaceUnderscore c)).filter allowedChar

/-- Embedding of `FunctionDB.generateFunctionID`: sanitize the name, append
the mandatory `-<id>` suffix, truncating only the name portion so the total
stays within the 63-character container-name ceiling.  (Go computes
`maxNameLength := 63 - len(suffix)` and clamps negatives to `0`; `Nat`
subtraction does the same clamping.) -/
def generateFunctionID (entry : FunctionEntry) : String :=
  let name := sanitizeName entry.FunctionName.data
  let suffix := '-' :: (itoa entry.ID).data
  let maxNameLength := 63 - suffix.length
  String.mk (name.take maxNameLength ++ suffix)

/-- The characters after the last `'-'`, or `none` when no `'-'` occurs:
the slice `uid[strings.LastIndex(uid, "-")+1:]`. -/
def afterLastDash : List Char → Option (List Char)
  | [] => none
  | c :: rest =>
    match afterLastDash rest with
    | some r => some r
    | none => if c = '-' then some rest else none

/-- Embedding of `FunctionDB.solveFunctionID`: the substring after the last
`'-'`, or `""` when the uid contains no `'-'`. -/
def solveFunctionID (uid : String) : String :=
  match afterLastDash uid.data with
  | some l => String.mk l
  | none => ""

theorem afterLastDash_eq_none (l : List Char) (h : ∀ c ∈ l, c ≠ '-') :
    afterLastDash l = none := by
  induction l with
  | nil => rfl
  | cons c rest ih =>
    rw [afterLastDash, ih fun x hx => h x (List.mem_cons_of_mem _ hx)]
    simp [h c (List.mem_cons_self c rest)]

theorem afterLastDash_append (xs ys : List Char) (h : ∀ c ∈ ys, c ≠ '-') :
    afterLastDash (xs ++ '-' :: ys) = some ys := by
  induction xs with
  | nil =>
    rw [List.nil_append, afterLastDash, afterLastDash_eq_none ys h]
    simp
  | cons c rest ih =>
    rw [List.cons_append, afterLastDash, ih]

theorem itoa_no_dash (n : Nat) : ∀ c ∈ (itoa n).data, c ≠ '-' := by
  intro c hc hdash
  have := itoa_digits n c hc
  rw [hdash] at this
  exact absurd this (by decide)

/-- Resolving a generated uid gives back the decimal rendering of the id,
for every entry (the name portion may itself contain dashes; the suffix,
being all digits, is always the text after the last dash). -/
theorem solveFunctionID_generateFunctionID (entry : FunctionEntry) :
    solveFunctionID (generateFunctionID entry) = itoa entry.ID := by
  rw [solveFunctionID, generateFunctionID]
  have : (String.mk ((sanitizeName entry.FunctionName.data).take
      (63 - ('-' :: (itoa entry.ID).data).length) ++ '-' :: (itoa entry.ID).data)).data =
      (sanitizeName entry.FunctionName.data).take
      (63 - ('-' :: (itoa entry.ID).data).length) ++ '-' :: (itoa entry.ID).data := rfl
  rw [this, afterLastDash_append _ _ (itoa_no_dash entry.ID)]

theorem sanitizeName_allowed (s : List Char) :
    ∀ c ∈ sanitizeName s, allowedChar c = true := by
  intro c hc
  exact List.of_mem_filter hc

theorem digit_allowed (c : Char) (h : isDigitChar c = true) : allowedChar c = true := by
  simp only [isDigitChar, Bool.and_eq_true, decide_eq_true_eq] at h
  simp only [allowedChar, Bool.or_eq_true, Bool.and_eq_true, decide_eq_true_eq]
  exact Or.inl (Or.inr ⟨h.1, h.2⟩)

/-! ## Function Store (`Database.go`: `functions` table operations)

The MySQL `functions` table is modelled as a partial map from the integer
primary key to rows, plus the `AUTO_INCREMENT` counter.  The store-level
operations receive the same (string-typed) id arguments the Go code passes
them and resolve them with the strict decimal parser — on the purely
numeric id strings the engine actually produces this coincides with
MySQL's string-to-number coercion. -/

structure StoreState where
  rows : Nat → Option FunctionEntry
  nextId : Nat

/-- `FunctionDB.InsertFunction`: validates, then inserts a fresh row (with
`container_id` NULL) and returns the uid generated from the inserted row.
Failure is a Go `error`; validation failures happen before any write. -/
def insertFunction (st : StoreState) (functionName functionLanguage functionCode : String) :
    Except String (String × StoreState) :=
  if functionName = "" ∨ functionLanguage = "" ∨ functionCode = "" then
    .error "database insertion requires non empty values for functionName, language, and code"
  else if FunctionNameMaxLen < functionName.length ∨
      FunctionLanguageMaxLen < functionLanguage.length ∨
      FunctionCodeMaxLen < functionCode.length then
    .error "database insertion requires function name, code, or language is too long"
  else
    let entry : FunctionEntry :=
      { ID := st.nextId, FunctionName := functionName, FunctionCode := functionCode,
        FunctionLanguage := functionLanguage, ContainerID := none }
    .ok (generateFunctionID entry,
      { rows := fun k => if k = st.nextId then some entry else st.rows k,
        nextId := st.nextId + 1 })

/-- `FunctionDB.GetFunction`: resolve the uid to an id string and select
the row with that id (`none` models the `sql.ErrNoRows` error path). -/
def dbGet (st : StoreState) (uid : String) : Option FunctionEntry :=
  match parseNatStr (solveFunctionID uid) with
  | some n => st.rows n
  | none => none

/-- `FunctionDB.DeleteFunction`: resolve the uid and delete the row with
that id (deleting an absent row is not an error, as in SQL `DELETE`). -/
def dbDelete (st : StoreState) (uid : String) : StoreState :=
  match parseNatStr (solveFunctionID uid) with
  | some n => { st with rows := fun k => if k = n then none else st.rows k }
  | none => st

/-- `FunctionDB.UpdateCIDToFunction`: resolve the uid and attach the
container id to the row with that id. -/
def dbUpdateCID (st : StoreState) (uid containerId : String) : StoreState :=
  match parseNatStr (solveFunctionID uid) with
  | some n =>
    { st with rows := fun k =>
        if k = n then (st.rows n).map fun e => { e with ContainerID := some containerId }
        else st.rows k }
  | none => st

/-! ## Engine state and registration (`Engine.go`: `CreateFunction`) -/

/-- The Engine-local mutable state touched by `CreateFunction` /
`InvokeFunction`: the shared store, the in-memory `cachedFunctions` map and
the list of container names created by the Docker runtime. -/
structure EngineState where
  store : StoreState
  cache : String → Option FunctionEntry
  containers : List String

structure CreateOut where
  result : Except String String
  state : EngineState

/-- Embedding of `Engine.CreateFunction` (body inside the mutex):
1. `db.InsertFunction(name, "py", code)` — failure aborts with no effect;
2. `ContainerCreate(..., uid)` — `provisionOk` fixes the runtime's answer;
   on failure the just-inserted row is deleted (`db.DeleteFunction(uid)`)
   and the call fails;
3. `db.UpdateCIDToFunction(uid, resp.ID)`;
4. `db.GetFunction(uid)` and write-through into `cachedFunctions`. -/
def createFunction (e : EngineState) (provisionOk : Bool) (containerId : String)
    (name code : String) : CreateOut :=
  match insertFunction e.store name "py" code with
  | .error _ => ⟨.error "failed to create function", e⟩
  | .ok (uid, st1) =>
    if provisionOk then
      let st2 := dbUpdateCID st1 uid containerId
      match dbGet st2 uid with
      | some fn =>
        ⟨.ok uid,
          { store := st2,
            cache := fun u => if u = uid then some fn else e.cache u,
            containers := uid :: e.containers }⟩
      | none =>
        ⟨.error "failed to create function",
          { e with store := st2, containers := uid :: e.containers }⟩
    else
      ⟨.error "failed to create function", { e with store := dbDelete st1 uid }⟩

theorem parseNatStr_uid (entry : FunctionEntry) :
    parseNatStr (solveFunctionID (generateFunctionID entry)) = some entry.ID := by
  rw [solveFunctionID_generateFunctionID, parseNatStr_itoa]

/-! ## Readiness polling (`Engine.go`: `waitForContainerReady`)

One loop iteration observes a health-probe answer and a filtered
container-listing answer; `PollObs` records both.  Durations are in
milliseconds.  The backoff sequence (`500ms`, then `×1.5` capped at `5s`)
does not depend on the observations, so it and the accumulated sleep time
are pure functions of the iteration index.  The Go float arithmetic
`time.Duration(float64(backoff) * 1.5)` is exact on every reachable value
(each is an integer number of nanoseconds divisible by a large power of
two), so integer `backoff * 3 / 2` reproduces it. -/

structure PollObs where
  healthOk : Bool
  listNonEmpty : Bool

/-- Backoff (ms) used by the sleep at the end of iteration `i`. -/
def backoffAt : Nat → Nat
  | 0 => 500
  | i + 1 => min (backoffAt i * 3 / 2) 5000

/-- Total time slept before iteration `i` starts (only sleeps advance the
model clock; probe latencies are abstracted away). -/
def elapsedAt : Nat → Nat
  | 0 => 0
  | i + 1 => elapsedAt i + backoffAt i

theorem backoffAt_pos (i : Nat) : 0 < backoffAt i := by
  induction i with
  | zero => decide
  | succ i ih =>
    rw [backoffAt]
    have h3 : 3 ≤ backoffAt i * 3 := by omega
    have : 1 ≤ backoffAt i * 3 / 2 := by
      rw [Nat.le_div_iff_mul_le (by omega)]
      omega
    omega

/-- Outcome of the polling loop, recording how many full iterations ran
before it returned (`.ready i` returns at iteration `i` having slept `i`
times, etc.). -/
inductive WaitOutcome where
  | ready (iters : Nat)
  | timedOut (iters : Nat)
  | crashed (iters : Nat)
deriving DecidableEq, Repr

/-- The loop body of `waitForContainerReady`, from iteration `i` on:
check the overall timeout, probe health, and — on a failed probe — abort
at once if the filtered container listing is empty, otherwise sleep the
current backoff and loop. -/
def waitGo (obs : Nat → PollObs) (timeout : Nat) (i : Nat) : WaitOutcome :=
  if timeout < elapsedAt i then .timedOut i
  else if (obs i).healthOk then .ready i
  else if (obs i).listNonEmpty then waitGo obs timeout (i + 1)
  else .crashed i
termination_by timeout + 1 - elapsedAt i
decreasing_by
  have hpos := backoffAt_pos i
  have hstep : elapsedAt (i + 1) = elapsedAt i + backoffAt i := rfl
  simp only [not_lt] at *
  omega

/-- Embedding of `Engine.waitForContainerReady` (timeout in ms). -/
def waitForContainerReady (obs : Nat → PollObs) (timeout : Nat) : WaitOutcome :=
  waitGo obs timeout 0

theorem waitGo_crash_aux (obs : Nat → PollObs) (timeout i : Nat)
    (hpre : ∀ j < i, elapsedAt j ≤ timeout ∧ (obs j).healthOk = false ∧
      (obs j).listNonEmpty = true)
    (helapsed : elapsedAt i ≤ timeout)
    (hhealth : (obs i).healthOk = false)
    (hlist : (obs i).listNonEmpty = false) :
    ∀ d k, k + d = i → waitGo obs timeout k = .crashed i := by
  intro d
  induction d with
  | zero =>
    intro k hk
    rw [Nat.add_zero] at hk
    subst hk
    rw [waitGo, if_neg (by omega), hhealth, if_neg (by simp), hlist,
      if_neg (by simp)]
  | succ d ih =>
    intro k hk
    have hklt : k < i := by omega
    obtain ⟨he, hh, hl⟩ := hpre k hklt
    rw [waitGo, if_neg (by omega), hh, if_neg (by simp), hl, if_pos rfl]
    exact ih (k + 1) (by omega)

/-! ## Dispatch (`Engine.go`: `invokeHttpRequest`)

The sidecar's answer to the `POST /invoke` request is one of: a transport
failure (`client.Post` returns an error — the request never reached the
sidecar), or an HTTP response with a status code and a body that either
fails to decode or decodes to `{result, error}`.  The result value is
opaque to the engine; a `String` stands in for it. -/

inductive RespBody where
  | malformed
  | parsed (result : String) (error : String)
deriving DecidableEq, Repr

inductive HttpOutcome where
  | transportError
  | response (status : Nat) (body : RespBody)
deriving DecidableEq, Repr

/-- Embedding of `Engine.invokeHttpRequest`, following the Go checks in
order: transport failure, `resp.StatusCode != http.StatusOK`, decode
failure, non-empty `result.Error` — each returns an error; only after all
of them does the code call `db.UpdateLastUsedTime("", uid, false)` and
return the result.  The `Bool` records whether that usage update ran. -/
def invokeHttpRequest (o : HttpOutcome) : Except String String × Bool :=
  match o with
  | .transportError => (.error "failed to invoke function", false)
  | .response status body =>
    if status ≠ 200 then (.error "failed to invoke function", false)
    else
      match body with
      | .malformed => (.error "failed to invoke function", false)
      | .parsed result error =>
        if error ≠ "" then (.error "failed to invoke function", false)
        else (.ok result, true)

/-- The request was delivered to the sidecar: every outcome except a
transport failure (a bad status, malformed body, or application-level
error all came out of the sidecar). -/
def reachesSidecar (o : HttpOutcome) : Prop := o ≠ .transportError

/-- The dispatch outcomes the spec's §4.3 lists as failures. -/
def isBadOutcome : HttpOutcome → Prop
  | .transportError => True
  | .response _ .malformed => True
  | .response s (.parsed _ error) => s ≠ 200 ∨ error ≠ ""

/-! ## Invocation (`Engine.go`: `InvokeFunction`)

The external calls made by one invocation are fixed by an environment:
the `ContainerInspect` answer, the `ContainerStart` answer, the polling
observations and the dispatch outcome. -/

inductive InspectResult where
  | missing
  | running
  | stopped
deriving DecidableEq, Repr

structure InvokeEnv where
  inspect : InspectResult
  startOk : Bool
  pollObs : Nat → PollObs
  dispatch : HttpOutcome

structure InvokeOut where
  result : Except String String
  state : EngineState
  storeRead : Bool
  usageInserted : Bool
  usageUpdated : Bool

/-- The lookup step of `InvokeFunction`: the `cachedFunctions` map first,
falling back to `db.GetFunction`. -/
def lookupFn (e : EngineState) (uid : String) : Option FunctionEntry :=
  match e.cache uid with
  | some f => some f
  | none => dbGet e.store uid

/-- Shared tail of `InvokeFunction`: the dispatch call, propagating its
result and whether it performed the steady-state usage update. -/
def dispatchStep (e : EngineState) (env : InvokeEnv) (storeRead inserted : Bool) :
    InvokeOut :=
  let (r, upd) := invokeHttpRequest env.dispatch
  ⟨r, e, storeRead, inserted, upd⟩

/-- Embedding of `Engine.InvokeFunction` (body inside the mutex):
1. look up the record in `cachedFunctions`, falling back to the store; a
   miss in both fails (`storeRead` records that the store was consulted —
   note the fetched record is *not* written back into the cache);
2. `ContainerInspect`; failure (vanished container) fails the call;
3. if not running: `ContainerStart` (failure fails the call), then
   `waitForContainerReady(uid, 10s)` (non-ready outcome fails the call),
   then `db.UpdateLastUsedTime(cid, uid, true)` inserts the UsageRecord
   (`usageInserted`);
4. `invokeHttpRequest(uid, params)`. -/
def invokeFunction (e : EngineState) (env : InvokeEnv) (uid : String) : InvokeOut :=
  let storeRead := (e.cache uid).isNone
  match lookupFn e uid with
  | none => ⟨.error "failed to invoke function", e, storeRead, false, false⟩
  | some _fn =>
    match env.inspect with
    | .missing => ⟨.error "failed to invoke function", e, storeRead, false, false⟩
    | .running => dispatchStep e env storeRead false
    | .stopped =>
      if env.startOk then
        match waitForContainerReady env.pollObs 10000 with
        | .ready _ => dispatchStep e env storeRead true
        | _ => ⟨.error "failed to invoke function", e, storeRead, false, false⟩
      else ⟨.error "failed to invoke function", e, storeRead, false, false⟩

/-! ## Cleanup Scheduler (`scheduler/src/main.go`: `CleanupContainers`)

One tick: select the `running_containers` rows with
`last_used < NOW() - threshold`, and for each (in order) stop the
container — aborting the whole remainder of the batch on a stop failure —
then delete its row.  Time stamps are abstract ticks; `stopFails` fixes
which `ContainerStop` calls fail. -/

structure UsageRecord where
  containerId : String
  functionId : Nat
  lastUsed : Nat
deriving DecidableEq, Repr

/-- The SQL selection predicate `last_used < NOW() - INTERVAL ? MINUTE`. -/
def isIdle (now threshold : Nat) (r : UsageRecord) : Bool :=
  r.lastUsed + threshold < now

/-- The row loop of `CleanupContainers` over the already-selected batch:
returns the surviving usage table and the list of containers stopped. -/
def cleanupGo (stopFails : String → Bool) :
    List UsageRecord → List UsageRecord → List String → List UsageRecord × List String
  | [], recs, stopped => (recs, stopped.reverse)
  | r :: rest, recs, stopped =>
    if stopFails r.containerId then (recs, stopped.reverse)
    else cleanupGo stopFails rest
      (recs.filter fun x => x.containerId ≠ r.containerId)
      (r.containerId :: stopped)

/-- Embedding of one `CleanupContainers` tick. -/
def cleanupTick (now threshold : Nat) (stopFails : String → Bool)
    (records : List UsageRecord) : List UsageRecord × List String :=
  cleanupGo stopFails (records.filter (isIdle now threshold)) records []

theorem cleanupGo_no_fail (stopFails : String → Bool) :
    ∀ (olds recs : List UsageRecord) (stopped : List String),
      (∀ r ∈ olds, stopFails r.containerId = false) →
      cleanupGo stopFails olds recs stopped =
        (recs.filter fun x => x.containerId ∉ olds.map UsageRecord.containerId,
         stopped.reverse ++ olds.map UsageRecord.containerId) := by
  intro olds
  induction olds with
  | nil =>
    intro recs stopped _
    simp [cleanupGo]
  | cons r rest ih =>
    intro recs stopped hok
    rw [cleanupGo, if_neg (by simp [hok r (List.mem_cons_self r rest)])]
    rw [ih _ _ fun x hx => hok x (List.mem_cons_of_mem _ hx)]
    rw [Prod.mk.injEq]
    constructor
    · rw [List.filter_filter]
      apply List.filter_congr
      intro x _
      by_cases h1 : x.containerId = r.containerId <;>
        by_cases h2 : x.containerId ∈ rest.map UsageRecord.containerId <;>
          simp [h1, h2]
    · simp

theorem cleanupGo_keeps (stopFails : String → Bool) :
    ∀ (olds recs : List UsageRecord) (stopped : List String) (x : UsageRecord),
      x ∈ recs → x.containerId ∉ olds.map UsageRecord.containerId →
      x ∈ (cleanupGo stopFails olds recs stopped).1 := by
  intro olds
  induction olds with
  | nil =>
    intro recs stopped x hx _
    simpa [cleanupGo] using hx
  | cons r rest ih =>
    intro recs stopped x hx hnot
    simp only [List.map_cons, List.mem_cons, not_or] at hnot
    rw [cleanupGo]
    by_cases hf : stopFails r.containerId
    · simpa [hf] using hx
    · rw [if_neg hf]
      apply ih
      · exact List.mem_filter.mpr ⟨hx, by simp [hnot.1]⟩
      · exact hnot.2

theorem cleanupGo_abort (stopFails : String → Bool) :
    ∀ (pre : List UsageRecord) (b : UsageRecord) (post recs : List UsageRecord)
      (stopped : List String),
      (∀ r ∈ pre, stopFails r.containerId = false) →
      stopFails b.containerId = true →
      cleanupGo stopFails (pre ++ b :: post) recs stopped =
        (recs.filter fun x => x.containerId ∉ pre.map UsageRecord.containerId,
         stopped.reverse ++ pre.map UsageRecord.containerId) := by
  intro pre
  induction pre with
  | nil =>
    intro b post recs stopped _ hb
    rw [List.nil_append, cleanupGo, if_pos hb]
    simp
  | cons r rest ih =>
    intro b post recs stopped hok hb
    rw [List.cons_append, cleanupGo,
      if_neg (by simp [hok r (List.mem_cons_self r rest)])]
    rw [ih b post _ _ (fun x hx => hok x (List.mem_cons_of_mem _ hx)) hb]
    rw [Prod.mk.injEq]
    constructor
    · rw [List.filter_filter]
      apply List.filter_congr
      intro x _
      by_cases h1 : x.containerId = r.containerId <;>
        by_cases h2 : x.containerId ∈ rest.map UsageRecord.containerId <;>
          simp [h1, h2]
    · simp

/-! ## Serialization through the Engine mutex (`Engine.go`: `e.mu`)

Both `CreateFunction` and `InvokeFunction` begin with `e.mu.Lock()` and
end with the deferred `e.mu.Unlock()`: the entire store/runtime/cache-
mutating body runs inside the one mutex of the Engine instance.  The
interleaving model below has an arbitrary set `T` of request-handling
threads, each labelled with which operation it runs; a thread is `idle`
until it acquires the mutex, spends some number of body steps in
`critical`, and releases on exit.  The mutex grants itself only when free
(`lock = none`), which is the semantics of `sync.Mutex`. -/

inductive OpKind where
  | create
  | invoke
deriving DecidableEq, Repr

inductive Phase where
  | idle (op : OpKind) (bodySteps : Nat)
  | critical (op : OpKind) (remaining : Nat)
  | finished (op : OpKind)
deriving DecidableEq, Repr

structure MutexSys (T : Type) where
  lock : Option T
  threads : T → Phase

/-- Initial system: mutex free, every thread about to call its operation. -/
def mutexInit {T : Type} (prog : T → OpKind × Nat) : MutexSys T :=
  { lock := none, threads := fun t => .idle (prog t).1 (prog t).2 }

/-- One interleaving step: `lock` is `e.mu.Lock()` at the top of
`CreateFunction`/`InvokeFunction`, `work` is one step of the body (run in
program order by the thread holding the mutex, since the body textually
follows the `Lock` call), `unlock` is the deferred `e.mu.Unlock()`. -/
inductive MutexStep {T : Type} [DecidableEq T] : MutexSys T → MutexSys T → Prop where
  | lock (s : MutexSys T) (t : T) (op : OpKind) (n : Nat) :
      s.lock = none → s.threads t = .idle op n →
      MutexStep s
        { lock := some t,
          threads := fun u => if u = t then .critical op n else s.threads u }
  | work (s : MutexSys T) (t : T) (op : OpKind) (n : Nat) :
      s.threads t = .critical op (n + 1) →
      MutexStep s
        { s with threads := fun u => if u = t then .critical op n else s.threads u }
  | unlock (s : MutexSys T) (t : T) (op : OpKind) :
      s.threads t = .critical op 0 →
      MutexStep s
        { lock := none,
          threads := fun u => if u = t then .finished op else s.threads u }

/-- Reachability from the initial system by interleaved steps. -/
inductive MutexReachable {T : Type} [DecidableEq T] (prog : T → OpKind × Nat) :
    MutexSys T → Prop where
  | init : MutexReachable prog (mutexInit prog)
  | step {s s' : MutexSys T} :
      MutexReachable prog s → MutexStep s s' → MutexReachable prog s'

/-- A thread is inside its store/runtime/cache-mutating body. -/
def inCritical (p : Phase) : Prop :=
  match p with
  | .critical _ _ => True
  | _ => False

/-- Inductive invariant: any thread inside the critical section holds the
mutex. -/
theorem mutex_owner_invariant {T : Type} [DecidableEq T] (prog : T → OpKind × Nat)
    (s : MutexSys T) (hs : MutexReachable prog s) :
    ∀ t : T, inCritical (s.threads t) → s.lock = some t := by
  induction hs with
  | init =>
    intro t ht
    simp [mutexInit, inCritical] at ht
  | @step s s' _ hstep ih =>
    intro t ht
    cases hstep with
    | lock u op n hfree hidle =>
      simp only at ht ⊢
      by_cases htu : t = u
      · subst htu; rfl
      · rw [if_neg htu] at ht
        have := ih t ht
        rw [hfree] at this
        exact absurd this (by simp)
    | work u op n hcrit =>
      simp only at ht ⊢
      by_cases htu : t = u
      · subst htu
        exact ih t (by rw [hcrit]; trivial)
      · rw [if_neg htu] at ht
        exact ih t ht
    | unlock u op hcrit =>
      simp only at ht ⊢
      by_cases htu : t = u
      · subst htu
        rw [if_pos rfl] at ht
        exact absurd ht (by simp [inCritical])
      · rw [if_neg htu] at ht
        have h1 := ih t ht
        have h2 := ih u (by rw [hcrit]; trivial)
        rw [h1] at h2
        exact absurd (Option.some.inj h2) htu

/-! ## Claim theorems -/

/-- C2: for every FunctionRecord with a 1–50 character name and a positive
id, `generateUid` lower-cases the name, replaces `'_'` with `'-'`, strips
every character outside `[a-z0-9-]`, appends the mandatory `-<id>` suffix,
and truncates only the name portion so the total length never exceeds 63
characters while the suffix stays intact; in particular on name
`"Hello_World"` with id 7 it yields `"hello-world-7"`.  (The id bound
`10 ^ 62` reflects that a machine-integer id's decimal suffix always fits
inside the 63-character ceiling.) -/
theorem generateUid_spec (entry : FunctionEntry)
    (hn1 : 1 ≤ entry.FunctionName.length) (hn2 : entry.FunctionName.length ≤ 50)
    (hid1 : 1 ≤ entry.ID) (hid2 : entry.ID < 10 ^ 62) :
    (generateFunctionID entry).length ≤ 63 ∧
    (∃ p, p <+: sanitizeName entry.FunctionName.data ∧
      (generateFunctionID entry).data = p ++ '-' :: (itoa entry.ID).data) ∧
    (∀ c ∈ (generateFunctionID entry).data, allowedChar c = true) ∧
    generateFunctionID
      { ID := 7, FunctionName := "Hello_World", FunctionCode := "",
        FunctionLanguage := "", ContainerID := none } = "hello-world-7" := by
  have hsuffix : (itoa entry.ID).data.length ≤ 62 := by
    have h0 : entry.ID ≠ 0 := by omega
    simp only [itoa_eq, if_neg h0]
    exact itoaAux_length_le 62 entry.ID hid2
  refine ⟨?_, ?_, ?_, by decide⟩
  · show ((sanitizeName entry.FunctionName.data).take
      (63 - ('-' :: (itoa entry.ID).data).length) ++
      '-' :: (itoa entry.ID).data).length ≤ 63
    rw [List.length_append, List.length_cons]
    have ht := List.length_take (63 - ('-' :: (itoa entry.ID).data).length)
      (sanitizeName entry.FunctionName.data)
    rw [List.length_cons] at ht
    omega
  · exact ⟨(sanitizeName entry.FunctionName.data).take
      (63 - ('-' :: (itoa entry.ID).data).length), List.take_prefix _ _, rfl⟩
  · intro c hc
    show allowedChar c = true
    have : c ∈ (sanitizeName entry.FunctionName.data).take
        (63 - ('-' :: (itoa entry.ID).data).length) ++
        '-' :: (itoa entry.ID).data := hc
    rcases List.mem_append.mp this with h | h
    · exact sanitizeName_allowed _ c (List.mem_of_mem_take h)
    · rcases List.mem_cons.mp h with h | h
      · subst h; decide
      · exact digit_allowed c (itoa_digits entry.ID c h)

/-- Witness for C2 at name `"Hello_World"`, id 7. -/
theorem generateUid_spec_witness :
    (1 ≤ ("Hello_World" : String).length ∧ ("Hello_World" : String).length ≤ 50 ∧
      1 ≤ 7 ∧ 7 < 10 ^ 62) ∧
    ((generateFunctionID
      { ID := 7, FunctionName := "Hello_World", FunctionCode := "",
        FunctionLanguage := "", ContainerID := none }).length ≤ 63 ∧
    (∃ p, p <+: sanitizeName ("Hello_World" : String).data ∧
      (generateFunctionID
        { ID := 7, FunctionName := "Hello_World", FunctionCode := "",
          FunctionLanguage := "", ContainerID := none }).data = p ++ '-' :: (itoa 7).data) ∧
    (∀ c ∈ (generateFunctionID
      { ID := 7, FunctionName := "Hello_World", FunctionCode := "",
        FunctionLanguage := "", ContainerID := none }).data, allowedChar c = true) ∧
    generateFunctionID
      { ID := 7, FunctionName := "Hello_World", FunctionCode := "",
        FunctionLanguage := "", ContainerID := none } = "hello-world-7") :=
  ⟨⟨by decide, by decide, by decide, by norm_num⟩,
    generateUid_spec
      { ID := 7, FunctionName := "Hello_World", FunctionCode := "",
        FunctionLanguage := "", ContainerID := none }
      (by decide) (by decide) (by decide) (by norm_num)⟩

/-- C3: for every FunctionRecord with a positive id and a 1–50 character
name, resolving the generated UID (the substring after the last `'-'`)
gives back exactly the decimal string of the record's id:
`resolveUid (generateUid record) = toString record.id` (and that string's
numeric value is the id itself). -/
theorem resolveUid_generateUid_roundtrip (entry : FunctionEntry)
    (hid : 1 ≤ entry.ID)
    (hn1 : 1 ≤ entry.FunctionName.length) (hn2 : entry.FunctionName.length ≤ 50) :
    solveFunctionID (generateFunctionID entry) = itoa entry.ID ∧
    fromDigits (itoa entry.ID).data = entry.ID :=
  ⟨solveFunctionID_generateFunctionID entry, fromDigits_itoa entry.ID⟩

/-- Witness for C3 at name `"Hello_World"`, id 7. -/
theorem resolveUid_generateUid_roundtrip_witness :
    (1 ≤ 7 ∧ 1 ≤ ("Hello_World" : String).length ∧
      ("Hello_World" : String).length ≤ 50) ∧
    (solveFunctionID (generateFunctionID
      { ID := 7, FunctionName := "Hello_World", FunctionCode := "",
        FunctionLanguage := "", ContainerID := none }) = itoa 7 ∧
    fromDigits (itoa 7).data = 7) :=
  ⟨⟨by decide, by decide, by decide⟩,
    resolveUid_generateUid_roundtrip
      { ID := 7, FunctionName := "Hello_World", FunctionCode := "",
        FunctionLanguage := "", ContainerID := none }
      (by decide) (by decide) (by decide)⟩

/-- The row `InsertFunction` adds for inputs `(name, "py", code)` on store
state `st` (id = the auto-increment counter, container id NULL). -/
def insertedEntry (st : StoreState) (name code : String) : FunctionEntry :=
  { ID := st.nextId, FunctionName := name, FunctionCode := code,
    FunctionLanguage := "py", ContainerID := none }

/-- The store state after that insertion. -/
def insertedStore (st : StoreState) (name code : String) : StoreState :=
  { rows := fun k => if k = st.nextId then some (insertedEntry st name code) else st.rows k,
    nextId := st.nextId + 1 }

theorem insertFunction_ok (st : StoreState) (name code : String)
    (hname : name ≠ "") (hcode : code ≠ "")
    (hnlen : name.length ≤ FunctionNameMaxLen)
    (hclen : code.length ≤ FunctionCodeMaxLen) :
    insertFunction st name "py" code =
      .ok (generateFunctionID (insertedEntry st name code), insertedStore st name code) := by
  rw [insertFunction, if_neg, if_neg]
  · rfl
  · push_neg
    exact ⟨hnlen, by decide, hclen⟩
  · push_neg
    exact ⟨hname, by decide, hcode⟩

/-- C1: if container provisioning fails during `CreateFunction`, the
engine deletes the FunctionRecord it inserted in step 1 and the whole call
fails; afterwards the previously inserted record is no longer retrievable
and the `functions` table is left exactly as it was before the call (the
cache and the container list are also untouched). -/
theorem createFunction_provisioning_compensation (e : EngineState)
    (name code containerId : String)
    (hname : name ≠ "") (hcode : code ≠ "")
    (hnlen : name.length ≤ FunctionNameMaxLen)
    (hclen : code.length ≤ FunctionCodeMaxLen)
    (hfresh : e.store.rows e.store.nextId = none) :
    (createFunction e false containerId name code).result =
      .error "failed to create function" ∧
    (createFunction e false containerId name code).state.store.rows = e.store.rows ∧
    (createFunction e false containerId name code).state.cache = e.cache ∧
    (createFunction e false containerId name code).state.containers = e.containers ∧
    dbGet (createFunction e false containerId name code).state.store
      (generateFunctionID (insertedEntry e.store name code)) = none := by
  have hins := insertFunction_ok e.store name code hname hcode hnlen hclen
  have hout : createFunction e false containerId name code =
      ⟨.error "failed to create function",
        { e with store := dbDelete (insertedStore e.store name code) (generateFunctionID (insertedEntry e.store name code)) }⟩ := by
    rw [createFunction, hins]
    rfl
  have hparse : parseNatStr (solveFunctionID
      (generateFunctionID (insertedEntry e.store name code))) = some e.store.nextId :=
    parseNatStr_uid _
  have hrows : (createFunction e false containerId name code).state.store.rows =
      e.store.rows := by
    rw [hout]
    show (dbDelete _ _).rows = e.store.rows
    rw [dbDelete, hparse]
    funext k
    by_cases hk : k = e.store.nextId
    · subst hk
      simp [hfresh]
    · simp only [if_neg hk]
      show (insertedStore e.store name code).rows k = e.store.rows k
      rw [insertedStore]
      simp [hk]
  refine ⟨by rw [hout], hrows, by rw [hout], by rw [hout], ?_⟩
  rw [dbGet, hparse]
  show (createFunction e false containerId name code).state.store.rows e.store.nextId = none
  rw [hrows, hfresh]

/-- Witness for C1 on an empty store. -/
theorem createFunction_provisioning_compensation_witness :
    (("f" : String) ≠ "" ∧ ("c" : String) ≠ "" ∧
      ("f" : String).length ≤ FunctionNameMaxLen ∧
      ("c" : String).length ≤ FunctionCodeMaxLen ∧
      (EngineState.mk ⟨fun _ => none, 1⟩ (fun _ => none) []).store.rows
        (EngineState.mk ⟨fun _ => none, 1⟩ (fun _ => none) []).store.nextId = none) ∧
    (createFunction (EngineState.mk ⟨fun _ => none, 1⟩ (fun _ => none) [])
      false "cid" "f" "c").result = .error "failed to create function" :=
  ⟨⟨by decide, by decide, by decide, by decide, rfl⟩,
    (createFunction_provisioning_compensation
      (EngineState.mk ⟨fun _ => none, 1⟩ (fun _ => none) []) "f" "c" "cid"
      (by decide) (by decide) (by decide) (by decide) rfl).1⟩

/-- C4: `CreateFunction` called with an empty name, empty code, a name
longer than 50 characters, or code longer than 10,000 characters fails
before any persistence or provisioning attempt: the returned state is the
input state unchanged (no row inserted, no container created, no cache
entry). -/
theorem createFunction_validation_boundary (e : EngineState)
    (provisionOk : Bool) (containerId name code : String)
    (hbad : name = "" ∨ code = "" ∨ FunctionNameMaxLen < name.length ∨
      FunctionCodeMaxLen < code.length) :
    (createFunction e provisionOk containerId name code).result =
      .error "failed to create function" ∧
    (createFunction e provisionOk containerId name code).state = e := by
  have hins : ∃ m, insertFunction e.store name "py" code = .error m := by
    rw [insertFunction]
    by_cases h1 : name = "" ∨ ("py" : String) = "" ∨ code = ""
    · exact ⟨_, by rw [if_pos h1]⟩
    · push_neg at h1
      have h2 : FunctionNameMaxLen < name.length ∨
          FunctionLanguageMaxLen < ("py" : String).length ∨
          FunctionCodeMaxLen < code.length := by
        rcases hbad with h | h | h | h
        · exact absurd h h1.1
        · exact absurd h h1.2.2
        · exact Or.inl h
        · exact Or.inr (Or.inr h)
      exact ⟨_, by rw [if_neg (by push_neg; exact ⟨h1.1, h1.2.1, h1.2.2⟩), if_pos h2]⟩
  obtain ⟨m, hm⟩ := hins
  constructor
  · rw [createFunction, hm]
  · rw [createFunction, hm]

/-- Witness for C4 with an empty name. -/
theorem createFunction_validation_boundary_witness :
    (("" : String) = "" ∨ ("code" : String) = "" ∨
      FunctionNameMaxLen < ("" : String).length ∨
      FunctionCodeMaxLen < ("code" : String).length) ∧
    (createFunction (EngineState.mk ⟨fun _ => none, 1⟩ (fun _ => none) [])
        true "cid" "" "code").result = .error "failed to create function" ∧
    (createFunction (EngineState.mk ⟨fun _ => none, 1⟩ (fun _ => none) [])
        true "cid" "" "code").state =
      EngineState.mk ⟨fun _ => none, 1⟩ (fun _ => none) [] :=
  ⟨Or.inl rfl,
    createFunction_validation_boundary
      (EngineState.mk ⟨fun _ => none, 1⟩ (fun _ => none) []) true "cid" "" "code"
      (Or.inl rfl)⟩

/-- C5: during dispatch, each of the four outcomes — non-success HTTP
status, transport failure, malformed response body, or non-empty
application-level error field — makes `invokeHttpRequest` return a
failure, and the surrounding `InvokeFunction` therefore never returns a
success result for such a dispatch. -/
theorem dispatch_failures_reported (o : HttpOutcome) (hbad : isBadOutcome o) :
    (invokeHttpRequest o).1 = .error "failed to invoke function" ∧
    ∀ (e : EngineState) (env : InvokeEnv) (uid : String),
      env.dispatch = o → ∀ v, (invokeFunction e env uid).result ≠ .ok v := by
  have hmain : (invokeHttpRequest o).1 = .error "failed to invoke function" := by
    match o, hbad with
    | .transportError, _ => rfl
    | .response s .malformed, _ =>
      by_cases hs : s ≠ 200 <;> simp [invokeHttpRequest, hs]
    | .response s (.parsed result error), hbad =>
      rcases hbad with h | h
      · simp [invokeHttpRequest, h]
      · by_cases hs : s ≠ 200
        · simp [invokeHttpRequest, hs]
        · simp [invokeHttpRequest, hs, h]
  refine ⟨hmain, ?_⟩
  intro e env uid hdisp v
  have hds : ∀ ins : Bool, ∀ sr : Bool,
      (dispatchStep e env sr ins).result ≠ .ok v := by
    intro ins sr
    rw [dispatchStep]
    have : (invokeHttpRequest env.dispatch).1 = .error "failed to invoke function" := by
      rw [hdisp]; exact hmain
    cases hup : invokeHttpRequest env.dispatch with
    | mk r upd =>
      rw [hup] at this
      simp only at this ⊢
      rw [this]
      intro hcontra
      exact Except.noConfusion hcontra
  rw [invokeFunction]
  cases hl : lookupFn e uid with
  | none => simp
  | some fn =>
    cases env.inspect with
    | missing => simp
    | running => exact hds false _
    | stopped =>
      by_cases hs : env.startOk
      · rw [if_pos hs]
        cases waitForContainerReady env.pollObs 10000 with
        | ready k => exact hds true _
        | timedOut k => simp
        | crashed k => simp
      · rw [if_neg hs]
        simp

/-- Witness for C5 at a transport failure. -/
theorem dispatch_failures_reported_witness :
    isBadOutcome .transportError ∧
    ((invokeHttpRequest .transportError).1 = .error "failed to invoke function" ∧
    ∀ (e : EngineState) (env : InvokeEnv) (uid : String),
      env.dispatch = .transportError →
      ∀ v, (invokeFunction e env uid).result ≠ .ok v) :=
  ⟨trivial, dispatch_failures_reported .transportError trivial⟩

/-- C6: whenever the filtered container listing comes back empty at poll
iteration `i` of the readiness loop (the health probe having failed there,
and all earlier iterations having probed, found the container alive and
slept), the loop returns the crash outcome at exactly iteration `i` — it
performs no further sleep or probe instead of waiting out the remaining
timeout — and the surrounding `InvokeFunction` (which runs the loop with
its 10s timeout) fails. -/
theorem readiness_crash_aborts_immediately (obs : Nat → PollObs) (timeout i : Nat)
    (hpre : ∀ j < i, elapsedAt j ≤ timeout ∧ (obs j).healthOk = false ∧
      (obs j).listNonEmpty = true)
    (helapsed : elapsedAt i ≤ timeout)
    (hhealth : (obs i).healthOk = false)
    (hlist : (obs i).listNonEmpty = false) :
    waitForContainerReady obs timeout = .crashed i ∧
    (timeout = 10000 →
      ∀ (e : EngineState) (env : InvokeEnv) (uid : String),
        env.inspect = .stopped → env.pollObs = obs →
        (invokeFunction e env uid).result = .error "failed to invoke function") := by
  have hwait : waitForContainerReady obs timeout = .crashed i :=
    waitGo_crash_aux obs timeout i hpre helapsed hhealth hlist i 0 (by omega)
  refine ⟨hwait, ?_⟩
  intro htimeout e env uid hinspect hobs
  rw [invokeFunction]
  cases lookupFn e uid with
  | none => rfl
  | some fn =>
    rw [hinspect]
    by_cases hs : env.startOk
    · rw [if_pos hs, hobs]
      have hw : waitForContainerReady obs 10000 = .crashed i := htimeout ▸ hwait
      rw [hw]
    · rw [if_neg hs]

/-- Witness for C6: the container is listed at iteration 0 and has
vanished by iteration 1; the loop crashes after one sleep (500ms), far
inside the 10s timeout. -/
theorem readiness_crash_aborts_immediately_witness :
    ((∀ j < 1, elapsedAt j ≤ 10000 ∧
        ((fun j => PollObs.mk false (j == 0)) j).healthOk = false ∧
        ((fun j => PollObs.mk false (j == 0)) j).listNonEmpty = true) ∧
      elapsedAt 1 ≤ 10000 ∧
      ((fun j => PollObs.mk false (j == 0)) 1).healthOk = false ∧
      ((fun j => PollObs.mk false (j == 0)) 1).listNonEmpty = false) ∧
    waitForContainerReady (fun j => PollObs.mk false (j == 0)) 10000 = .crashed 1 :=
  ⟨⟨by decide, by decide, by decide, by decide⟩,
    (readiness_crash_aborts_immediately (fun j => PollObs.mk false (j == 0)) 10000 1
      (by decide) (by decide) (by decide) (by decide)).1⟩

/-- C7 counterexample: a steady-state invocation whose dispatch *reaches
the sidecar* (HTTP 200, well-formed body) but carries a non-empty
application-level error field records **no** usage timestamp: `Engine.go`
calls `UpdateLastUsedTime("", uid, false)` only after all dispatch error
checks, so the claim "updated on every invoke that reaches the sidecar,
regardless of whether the response is a success" is false on the code. -/
theorem usage_update_reaches_sidecar_counterexample :
    reachesSidecar (HttpOutcome.response 200 (.parsed "x" "boom")) ∧
    (invokeFunction
      (EngineState.mk ⟨fun _ => none, 2⟩
        (fun u => if u = "f-1" then
          some (FunctionEntry.mk 1 "f" "c" "py" (some "cid")) else none) [])
      (InvokeEnv.mk .running true (fun _ => PollObs.mk true true)
        (HttpOutcome.response 200 (.parsed "x" "boom")))
      "f-1").usageUpdated = false ∧
    (invokeFunction
      (EngineState.mk ⟨fun _ => none, 2⟩
        (fun u => if u = "f-1" then
          some (FunctionEntry.mk 1 "f" "c" "py" (some "cid")) else none) [])
      (InvokeEnv.mk .running true (fun _ => PollObs.mk true true)
        (HttpOutcome.response 200 (.parsed "x" "boom")))
      "f-1").usageInserted = false := by
  refine ⟨?_, rfl, rfl⟩
  intro h
  exact HttpOutcome.noConfusion h

/-- C7 (amended): the `lastUsedAt` timestamp is recorded exactly on the
successful paths — a UsageRecord is inserted when a stopped container is
started and becomes ready, and the steady-state update runs if and only if
the dispatch fully succeeds (HTTP 200, well-formed body, empty error
field); a dispatch that reaches the sidecar but fails does not update it. -/
theorem usage_update_exactly_on_success (e : EngineState) (env : InvokeEnv)
    (uid : String) :
    ((invokeFunction e env uid).usageUpdated = true ↔
      ∃ v, (invokeFunction e env uid).result = .ok v) ∧
    ((invokeFunction e env uid).usageInserted = true ↔
      (lookupFn e uid).isSome ∧ env.inspect = .stopped ∧ env.startOk = true ∧
      ∃ k, waitForContainerReady env.pollObs 10000 = .ready k) := by
  have hhttp : ∀ o : HttpOutcome,
      ((invokeHttpRequest o).2 = true ↔ ∃ v, (invokeHttpRequest o).1 = .ok v) := by
    intro o
    match o with
    | .transportError => simp [invokeHttpRequest]
    | .response s .malformed =>
      by_cases hs : s ≠ 200 <;> simp [invokeHttpRequest, hs]
    | .response s (.parsed result error) =>
      by_cases hs : s ≠ 200
      · simp [invokeHttpRequest, hs]
      · by_cases herr : error ≠ "" <;> simp [invokeHttpRequest, hs, herr]
  have hds : ∀ sr ins : Bool,
      ((dispatchStep e env sr ins).usageUpdated = true ↔
        ∃ v, (dispatchStep e env sr ins).result = .ok v) ∧
      (dispatchStep e env sr ins).usageInserted = ins := by
    intro sr ins
    rw [dispatchStep]
    cases hup : invokeHttpRequest env.dispatch with
    | mk r upd =>
      have := hhttp env.dispatch
      rw [hup] at this
      simpa using this
  rw [invokeFunction]
  cases hl : lookupFn e uid with
  | none =>
    simp only [Option.isSome_none]
    constructor
    · simp
    · constructor
      · intro h
        exact absurd h (by simp)
      · intro ⟨h, _⟩
        exact absurd h (by simp)
  | some fn =>
    simp only [Option.isSome_some]
    cases hins : env.inspect with
    | missing =>
      constructor
      · simp
      · constructor
        · intro h
          exact absurd h (by simp)
        · intro ⟨_, h, _⟩
          exact InspectResult.noConfusion h
    | running =>
      refine ⟨(hds _ false).1, ?_⟩
      rw [(hds _ false).2]
      constructor
      · intro h
        exact absurd h (by simp)
      · intro ⟨_, h, _⟩
        exact InspectResult.noConfusion h
    | stopped =>
      by_cases hs : env.startOk
      · rw [if_pos hs]
        cases hw : waitForContainerReady env.pollObs 10000 with
        | ready k =>
          refine ⟨(hds _ true).1, ?_⟩
          rw [(hds _ true).2]
          simp [hs, hw]
        | timedOut k =>
          constructor
          · simp
          · constructor
            · intro h
              exact absurd h (by simp)
            · intro ⟨_, _, _, k', hk'⟩
              exact WaitOutcome.noConfusion hk'
        | crashed k =>
          constructor
          · simp
          · constructor
            · intro h
              exact absurd h (by simp)
            · intro ⟨_, _, _, k', hk'⟩
              exact WaitOutcome.noConfusion hk'
      · rw [if_neg hs]
        constructor
        · simp
        · constructor
          · intro h
            exact absurd h (by simp)
          · intro ⟨_, _, h, _⟩
            exact absurd h hs

/-- Under the primary-key uniqueness of `container_id`, a record's cid
occurs among the cids of a filtered sub-list iff the record itself passes
the filter. -/
theorem mem_filter_map_cid (records : List UsageRecord) (p : UsageRecord → Bool)
    (hnodup : (records.map UsageRecord.containerId).Nodup)
    (x : UsageRecord) (hx : x ∈ records) :
    x.containerId ∈ (records.filter p).map UsageRecord.containerId ↔ p x = true := by
  constructor
  · intro h
    obtain ⟨o, ho, hoc⟩ := List.mem_map.mp h
    have ho' := List.mem_filter.mp ho
    have hox : o = x := List.inj_on_of_nodup_map hnodup ho'.1 hx hoc
    rw [← hox]
    exact ho'.2
  · intro h
    exact List.mem_map.mpr ⟨x, List.mem_filter.mpr ⟨hx, h⟩, rfl⟩

/-- C8: on one Cleanup Scheduler tick over a usage table with unique
container ids: (a) when no stop fails, every UsageRecord older than the
idle threshold has its container stopped and its record deleted, in query
order; (b) every UsageRecord younger than the threshold survives the tick
untouched, unconditionally; (c) if the stop of some selected record `b`
fails (all records before it in the batch having been stopped), the
remainder of the batch is aborted: exactly the records before `b` are
stopped and deleted, and `b` and everything after it survive. -/
theorem cleanup_tick_spec (now threshold : Nat) (stopFails : String → Bool)
    (records : List UsageRecord)
    (hnodup : (records.map UsageRecord.containerId).Nodup) :
    ((∀ r ∈ records.filter (isIdle now threshold), stopFails r.containerId = false) →
      (cleanupTick now threshold stopFails records).1 =
        records.filter (fun r => !isIdle now threshold r) ∧
      (cleanupTick now threshold stopFails records).2 =
        (records.filter (isIdle now threshold)).map UsageRecord.containerId) ∧
    (∀ r ∈ records, isIdle now threshold r = false →
      r ∈ (cleanupTick now threshold stopFails records).1) ∧
    (∀ (pre : List UsageRecord) (b : UsageRecord) (post : List UsageRecord),
      records.filter (isIdle now threshold) = pre ++ b :: post →
      (∀ a ∈ pre, stopFails a.containerId = false) →
      stopFails b.containerId = true →
      (cleanupTick now threshold stopFails records).1 =
        records.filter (fun x => x.containerId ∉ pre.map UsageRecord.containerId) ∧
      (cleanupTick now threshold stopFails records).2 =
        pre.map UsageRecord.containerId) := by
  refine ⟨?_, ?_, ?_⟩
  · intro hok
    rw [cleanupTick, cleanupGo_no_fail stopFails _ _ _ hok]
    refine ⟨?_, by simp⟩
    apply List.filter_congr
    intro x hx
    have := mem_filter_map_cid records (isIdle now threshold) hnodup x hx
    by_cases h : isIdle now threshold x
    · simp [h, this.mpr h]
    · have hnot : x.containerId ∉
          (records.filter (isIdle now threshold)).map UsageRecord.containerId := by
        intro hc
        exact h (this.mp hc)
      simp [h, hnot]
  · intro r hr hyoung
    rw [cleanupTick]
    apply cleanupGo_keeps
    · exact hr
    · intro hc
      have := (mem_filter_map_cid records (isIdle now threshold) hnodup r hr).mp hc
      rw [hyoung] at this
      exact Bool.noConfusion this
  · intro pre b post hsplit hpre hb
    rw [cleanupTick, hsplit, cleanupGo_abort stopFails pre b post records [] hpre hb]
    exact ⟨by simp, by simp⟩

/-- Witness for C8: records `a` (idle) and `b` (fresh) at `now = 61`,
threshold 60 ticks, no stop failures. -/
theorem cleanup_tick_spec_witness :
    (([UsageRecord.mk "a" 1 0, UsageRecord.mk "b" 2 100].map
        UsageRecord.containerId).Nodup) ∧
    ((∀ r ∈ [UsageRecord.mk "a" 1 0, UsageRecord.mk "b" 2 100].filter (isIdle 61 60),
        (fun _ : String => false) r.containerId = false) →
      (cleanupTick 61 60 (fun _ => false)
          [UsageRecord.mk "a" 1 0, UsageRecord.mk "b" 2 100]).1 =
        [UsageRecord.mk "a" 1 0, UsageRecord.mk "b" 2 100].filter
          (fun r => !isIdle 61 60 r) ∧
      (cleanupTick 61 60 (fun _ => false)
          [UsageRecord.mk "a" 1 0, UsageRecord.mk "b" 2 100]).2 =
        ([UsageRecord.mk "a" 1 0, UsageRecord.mk "b" 2 100].filter
          (isIdle 61 60)).map UsageRecord.containerId) :=
  ⟨by decide,
    (cleanup_tick_spec 61 60 (fun _ => false)
      [UsageRecord.mk "a" 1 0, UsageRecord.mk "b" 2 100] (by decide)).1⟩

/-- C9: `CreateFunction` and `InvokeFunction` are serialized through the
one engine mutex: in every state reachable by interleaving any number of
registration/invocation threads, at most one thread is inside its
store/runtime/cache-mutating critical section at any instant. -/
theorem engine_ops_mutual_exclusion {T : Type} [DecidableEq T]
    (prog : T → OpKind × Nat) (s : MutexSys T)
    (hs : MutexReachable prog s) (t u : T)
    (ht : inCritical (s.threads t)) (hu : inCritical (s.threads u)) : t = u := by
  have h1 := mutex_owner_invariant prog s hs t ht
  have h2 := mutex_owner_invariant prog s hs u hu
  rw [h1] at h2
  exact Option.some.inj h2

/-- A two-thread program for the C9 witness: thread `false` runs a
registration, thread `true` an invocation with a two-step body. -/
def demoProg : Bool → OpKind × Nat :=
  fun t => if t then (OpKind.invoke, 2) else (OpKind.create, 3)

/-- The system state after thread `true` acquires the mutex. -/
def demoSys : MutexSys Bool :=
  { lock := some true,
    threads := fun u => if u = true then Phase.critical OpKind.invoke 2
      else (mutexInit demoProg).threads u }

/-- Witness for C9: after thread `true` acquires the mutex it is in its
critical section, and mutual exclusion applies. -/
theorem engine_ops_mutual_exclusion_witness :
    (MutexReachable demoProg demoSys ∧ inCritical (demoSys.threads true)) ∧
    (true : Bool) = true := by
  have hreach : MutexReachable demoProg demoSys :=
    MutexReachable.step MutexReachable.init
      (MutexStep.lock (mutexInit demoProg) true OpKind.invoke 2 rfl rfl)
  have hcrit : inCritical (demoSys.threads true) := by
    show inCritical (if true = true then Phase.critical OpKind.invoke 2
      else (mutexInit demoProg).threads true)
    rw [if_pos rfl]
    trivial
  exact ⟨⟨hreach, hcrit⟩,
    engine_ops_mutual_exclusion demoProg demoSys hreach true true hcrit hcrit⟩

/-- C10: only `CreateFunction` writes the in-memory cache.
`InvokeFunction` leaves the entire engine state — in particular the
`cachedFunctions` map — unchanged on every path, and it consults the
Function Store exactly when the cache misses, so a function not registered
by this process is re-read from the store on every invocation; dually, a
successful `CreateFunction` does write its uid through to the cache. -/
theorem invoke_cache_frame (e : EngineState) (env : InvokeEnv) (uid : String) :
    (invokeFunction e env uid).state.cache = e.cache ∧
    (invokeFunction e env uid).state = e ∧
    ((invokeFunction e env uid).storeRead = true ↔ e.cache uid = none) := by
  have hstate : (invokeFunction e env uid).state = e := by
    rw [invokeFunction]
    cases lookupFn e uid with
    | none => rfl
    | some fn =>
      cases env.inspect with
      | missing => rfl
      | running => rfl
      | stopped =>
        by_cases hs : env.startOk
        · rw [if_pos hs]
          cases waitForContainerReady env.pollObs 10000 with
          | ready k => rfl
          | timedOut k => rfl
          | crashed k => rfl
        · rw [if_neg hs]
  have hread : (invokeFunction e env uid).storeRead = (e.cache uid).isNone := by
    rw [invokeFunction]
    cases lookupFn e uid with
    | none => rfl
    | some fn =>
      cases env.inspect with
      | missing => rfl
      | running => rfl
      | stopped =>
        by_cases hs : env.startOk
        · rw [if_pos hs]
          cases waitForContainerReady env.pollObs 10000 with
          | ready k => rfl
          | timedOut k => rfl
          | crashed k => rfl
        · rw [if_neg hs]
  refine ⟨by rw [hstate], hstate, ?_⟩
  rw [hread]
  cases h : e.cache uid <;> simp

end SimpleFaas
